import Mathlib

/-!
Verification of the perceptor core model (pkg/core/model.go).

The core is an in-memory scheduling state machine: a registry of per-image
scan records, a pod registry, two FIFO work queues (hub-check queue and scan
queue) and a concurrency gate on active scans.  Go maps are embedded as
association lists (first-match lookup, in-place update of the single matching
entry), pointer mutation of an ImageInfo record as a keyed functional update,
and Go panics as the None case of Option-valued operations.
-/

namespace Perceptor

/-- A docker image: content-derived sha plus a human-readable name.
Modelled from the spec: the Image type of pkg/common is not among the
provided sources; its two fields are taken from its uses in model.go
(image.Sha, image.Name) and the spec's data model. -/
structure Image where
  Sha : String
  Name : String
deriving DecidableEq, Repr

/-- A container: a name plus the image it runs.
Modelled from the spec: the Container type of pkg/common is not among the
provided sources. -/
structure Container where
  Name : String
  Image : Image
deriving DecidableEq, Repr

/-- A pod: namespace + name (combined into the qualified name used as the
registry key) and an ordered list of containers.
Modelled from the spec: the Pod type of pkg/common is not among the provided
sources; fields follow its uses in model.go and the spec's data model. -/
structure Pod where
  Namespace : String
  Name : String
  Containers : List Container
deriving DecidableEq, Repr

/-- Modelled from the spec: the qualified name is the combination of the
pod's namespace and name. -/
def Pod.QualifiedName (pod : Pod) : String :=
  pod.Namespace ++ "/" ++ pod.Name

/-- The per-image scan status enumeration, with the constructors used by
model.go: Unknown, InHubCheckQueue, CheckingHub, InQueue, RunningScanClient,
RunningHubScan, Error, Complete. -/
inductive ScanStatus where
  | unknown
  | inHubCheckQueue
  | checkingHub
  | inQueue
  | runningScanClient
  | runningHubScan
  | error
  | complete
deriving DecidableEq, Repr

/-- Aggregate findings for one image.
Modelled from the spec: the ScanResults type is not among the provided
sources; per the spec it carries a policy-violation count, a vulnerability
count and an overall status label, read in model.go through
PolicyViolationCount, VulnerabilityCount and OverallStatus. -/
structure ScanResults where
  PolicyViolationCount : Nat
  VulnerabilityCount : Nat
  OverallStatus : String
deriving DecidableEq, Repr

/-- One scan record per distinct image.
Modelled from the spec: the ImageInfo type is not among the provided sources;
fields follow its uses in model.go (ScanStatus, ScanResults, the image()
accessor rebuilding an Image from the stored sha and name) and the spec's
ImageScanInfo description. -/
structure ImageInfo where
  ImageSha : String
  ImageName : String
  ScanStatus : ScanStatus
  ScanResults : Option ScanResults
deriving DecidableEq, Repr

/-- Modelled from the spec: NewImageInfo creates a fresh record in the
initial (not yet scanned) status with no results attached. -/
def NewImageInfo (sha : String) (name : String) : ImageInfo :=
  { ImageSha := sha, ImageName := name
    ScanStatus := ScanStatus.unknown, ScanResults := none }

/-- Modelled from the spec: the image() accessor of an ImageInfo record. -/
def ImageInfo.image (info : ImageInfo) : Image :=
  { Sha := info.ImageSha, Name := info.ImageName }

/- Association-list embedding of Go maps: first-match lookup, in-place
update of the single matching entry, deletion, and set (replace or add). -/

def mapLookup {α : Type} (k : String) : List (String × α) → Option α
  | [] => none
  | (k', v) :: rest => if k' = k then some v else mapLookup k rest

def mapInsert {α : Type} (k : String) (v : α) (l : List (String × α)) :
    List (String × α) :=
  (k, v) :: l

def mapUpdate {α : Type} (k : String) (f : α → α) :
    List (String × α) → List (String × α)
  | [] => []
  | (k', v) :: rest =>
    if k' = k then (k', f v) :: rest else (k', v) :: mapUpdate k f rest

def mapErase {α : Type} (k : String) : List (String × α) → List (String × α)
  | [] => []
  | (k', v) :: rest =>
    if k' = k then mapErase k rest else (k', v) :: mapErase k rest

def mapSet {α : Type} (k : String) (v : α) :
    List (String × α) → List (String × α)
  | [] => [(k, v)]
  | (k', v') :: rest =>
    if k' = k then (k', v) :: rest else (k', v') :: mapSet k v rest

/-- Model is the root of the core model (model.go). -/
structure Model where
  Pods : List (String × Pod)
  Images : List (String × ImageInfo)
  ImageScanQueue : List Image
  ImageHubCheckQueue : List Image
  ConcurrentScanLimit : Int
deriving DecidableEq, Repr

def NewModel (concurrentScanLimit : Int) : Model :=
  { Pods := []
    Images := []
    ImageScanQueue := []
    ImageHubCheckQueue := []
    ConcurrentScanLimit := concurrentScanLimit }

/-- DeletePod removes the record of a pod, but does not affect images. -/
def DeletePod (model : Model) (podName : String) : Model :=
  { model with Pods := mapErase podName model.Pods }

/-- addImageToHubCheckQueue: requires status Unknown or Error (anything else
is a fatal consistency violation, embedded as none), sets the status to
InHubCheckQueue and appends the record's image at the tail of the hub check
queue. -/
def addImageToHubCheckQueue (model : Model) (sha : String) : Option Model :=
  match mapLookup sha model.Images with
  | none => none
  | some imageInfo =>
    match imageInfo.ScanStatus with
    | ScanStatus.unknown | ScanStatus.error =>
      some { model with
        Images := mapUpdate sha
          (fun i => { i with ScanStatus := ScanStatus.inHubCheckQueue })
          model.Images
        ImageHubCheckQueue := model.ImageHubCheckQueue ++ [imageInfo.image] }
    | _ => none

/-- addImageToScanQueue: requires status CheckingHub or Error, sets the
status to InQueue and appends the record's image at the tail of the scan
queue. -/
def addImageToScanQueue (model : Model) (sha : String) : Option Model :=
  match mapLookup sha model.Images with
  | none => none
  | some imageInfo =>
    match imageInfo.ScanStatus with
    | ScanStatus.checkingHub | ScanStatus.error =>
      some { model with
        Images := mapUpdate sha
          (fun i => { i with ScanStatus := ScanStatus.inQueue })
          model.Images
        ImageScanQueue := model.ImageScanQueue ++ [imageInfo.image] }
    | _ => none

/-- AddImage adds an image to the model, creating a fresh record and queueing
it for hub checking; a repeat registration of a sha already present is a
no-op. -/
def AddImage (model : Model) (image : Image) : Option Model :=
  match mapLookup image.Sha model.Images with
  | some _ => some model
  | none =>
    addImageToHubCheckQueue
      { model with
        Images := mapInsert image.Sha (NewImageInfo image.Sha image.Name)
          model.Images }
      image.Sha

/-- The loop body of AddPod: AddImage for each container's image in order. -/
def addImagesOfContainers (model : Model) : List Container → Option Model
  | [] => some model
  | cont :: rest =>
    match AddImage model cont.Image with
    | none => none
    | some m2 => addImagesOfContainers m2 rest

/-- AddPod adds a pod and all the images in a pod to the model; the entry at
the pod's qualified name is unconditionally replaced. -/
def AddPod (model : Model) (newPod : Pod) : Option Model :=
  match addImagesOfContainers model newPod.Containers with
  | none => none
  | some m2 =>
    some { m2 with Pods := mapSet newPod.QualifiedName newPod m2.Pods }

/-- inProgressScanJobs: the shas of records in RunningScanClient or
RunningHubScan. -/
def inProgressP (p : String × ImageInfo) : Bool :=
  match p.2.ScanStatus with
  | ScanStatus.runningScanClient => true
  | ScanStatus.runningHubScan => true
  | _ => false

def inProgressScanJobs (model : Model) : List String :=
  (model.Images.filter inProgressP).map Prod.fst

def inProgressScanCount (model : Model) : Nat :=
  (inProgressScanJobs model).length

/-- getNextImageFromHubCheckQueue: returns the head of the hub check queue
(or no image when the queue is empty), moving its record to CheckingHub; a
head whose status is not InHubCheckQueue is a fatal consistency violation
(none). -/
def getNextImageFromHubCheckQueue (model : Model) :
    Option (Model × Option Image) :=
  match model.ImageHubCheckQueue with
  | [] => some (model, none)
  | first :: rest =>
    match mapLookup first.Sha model.Images with
    | none => none
    | some imageInfo =>
      if imageInfo.ScanStatus = ScanStatus.inHubCheckQueue then
        some ({ model with
          Images := mapUpdate first.Sha
            (fun i => { i with ScanStatus := ScanStatus.checkingHub })
            model.Images
          ImageHubCheckQueue := rest }, some first)
      else none

/-- getNextImageFromScanQueue: the concurrency gate is checked first -- at
or above the limit nothing is dequeued even if the queue is non-empty; then
the head of the scan queue (if any) moves to RunningScanClient. -/
def getNextImageFromScanQueue (model : Model) :
    Option (Model × Option Image) :=
  if (inProgressScanCount model : Int) ≥ model.ConcurrentScanLimit then
    some (model, none)
  else
    match model.ImageScanQueue with
    | [] => some (model, none)
    | first :: rest =>
      match mapLookup first.Sha model.Images with
      | none => none
      | some imageInfo =>
        if imageInfo.ScanStatus = ScanStatus.inQueue then
          some ({ model with
            Images := mapUpdate first.Sha
              (fun i => { i with ScanStatus := ScanStatus.runningScanClient })
              model.Images
            ImageScanQueue := rest }, some first)
        else none

/-- errorRunningScanClient: requires RunningScanClient, marks the record
Error and immediately re-adds the image to the scan queue (no backoff, no
retry count). -/
def errorRunningScanClient (model : Model) (image : Image) : Option Model :=
  match mapLookup image.Sha model.Images with
  | none => none
  | some results =>
    if results.ScanStatus = ScanStatus.runningScanClient then
      addImageToScanQueue
        { model with
          Images := mapUpdate image.Sha
            (fun i => { i with ScanStatus := ScanStatus.error })
            model.Images }
        image.Sha
    else none

/-- finishRunningScanClient: requires RunningScanClient, moves the record to
RunningHubScan. -/
def finishRunningScanClient (model : Model) (image : Image) : Option Model :=
  match mapLookup image.Sha model.Images with
  | none => none
  | some results =>
    if results.ScanStatus = ScanStatus.runningScanClient then
      some { model with
        Images := mapUpdate image.Sha
          (fun i => { i with ScanStatus := ScanStatus.runningHubScan })
          model.Images }
    else none

/-- Modelled from the spec: ReportAnalysisComplete.  The body of
finishRunningHubScan is commented out in model.go and the caller attaching
the results is not among the provided sources; per the spec's transition
table the precondition is HubScanRunning, the postcondition Complete, and
the side effect is attaching the given ScanResults to the record. -/
def finishRunningHubScan (model : Model) (image : Image)
    (results : ScanResults) : Option Model :=
  match mapLookup image.Sha model.Images with
  | none => none
  | some info =>
    if info.ScanStatus = ScanStatus.runningHubScan then
      some { model with
        Images := mapUpdate image.Sha
          (fun i => { i with ScanStatus := ScanStatus.complete
                             ScanResults := some results })
          model.Images }
    else none

/-- The loop body of scanResults: an image that is absent, not Complete, or
without results is skipped; counts are summed; the overall status is
overwritten by each overall status that is not the no-violation sentinel. -/
def scanResultsStep (images : List (String × ImageInfo))
    (acc : Nat × Nat × String) (container : Container) : Nat × Nat × String :=
  match mapLookup container.Image.Sha images with
  | none => acc
  | some imageInfo =>
    if imageInfo.ScanStatus = ScanStatus.complete then
      match imageInfo.ScanResults with
      | none => acc
      | some r =>
        (acc.1 + r.PolicyViolationCount,
         acc.2.1 + r.VulnerabilityCount,
         if r.OverallStatus ≠ "NOT_IN_VIOLATION" then r.OverallStatus
         else acc.2.2)
    else acc

/-- scanResults: per-pod aggregation.  NotFound (none) when the pod key is
absent; otherwise a fold of scanResultsStep over the pod's containers in
order starting from zero counts and an empty overall status. -/
def scanResults (model : Model) (podName : String) :
    Option (Nat × Nat × String) :=
  match mapLookup podName model.Pods with
  | none => none
  | some pod =>
    some (pod.Containers.foldl (scanResultsStep model.Images) (0, 0, ""))

/- The operation alphabet of the core: every mutating entry point of the
model, used to define the reachable states. -/

inductive Op where
  | addPod (pod : Pod)
  | deletePod (podName : String)
  | addImage (image : Image)
  | enqueueHubCheck (sha : String)
  | enqueueScan (sha : String)
  | dequeueHubCheck
  | dequeueScan
  | scanError (image : Image)
  | scanClientFinished (image : Image)
  | analysisComplete (image : Image) (results : ScanResults)
deriving Repr

def applyOp (model : Model) : Op → Option Model
  | Op.addPod pod => AddPod model pod
  | Op.deletePod podName => some (DeletePod model podName)
  | Op.addImage image => AddImage model image
  | Op.enqueueHubCheck sha => addImageToHubCheckQueue model sha
  | Op.enqueueScan sha => addImageToScanQueue model sha
  | Op.dequeueHubCheck => (getNextImageFromHubCheckQueue model).map Prod.fst
  | Op.dequeueScan => (getNextImageFromScanQueue model).map Prod.fst
  | Op.scanError image => errorRunningScanClient model image
  | Op.scanClientFinished image => finishRunningScanClient model image
  | Op.analysisComplete image results => finishRunningHubScan model image results

def runOps (model : Model) : List Op → Option Model
  | [] => some model
  | op :: ops =>
    match applyOp model op with
    | none => none
    | some m2 => runOps m2 ops

/- Invariant of reachable states: every queue member has a record whose
status matches its queue, shas occur at most once per queue, every record is
filed under its own sha, and the active-scan count stays within the
concurrency limit. -/

def QueueOk (images : List (String × ImageInfo)) (q : List Image)
    (s : ScanStatus) : Prop :=
  ∀ img ∈ q, ∃ info, mapLookup img.Sha images = some info ∧
    info.ScanStatus = s

structure Inv (m : Model) : Prop where
  hubOk : QueueOk m.Images m.ImageHubCheckQueue ScanStatus.inHubCheckQueue
  scanOk : QueueOk m.Images m.ImageScanQueue ScanStatus.inQueue
  hubNodup : (m.ImageHubCheckQueue.map Image.Sha).Nodup
  scanNodup : (m.ImageScanQueue.map Image.Sha).Nodup
  keys : ∀ sha info, mapLookup sha m.Images = some info → info.ImageSha = sha
  countLe : (inProgressScanCount m : Int) ≤ max m.ConcurrentScanLimit 0

/- A second description of the aggregation, following the spec's words: the
completed-and-with-results images referenced by the pod's containers are
collected, their two counts are summed, and the overall status is the last
non-sentinel status in container iteration order (empty if none).  Used only
to compare with scanResults, which is translated from the source. -/

def completedResults (images : List (String × ImageInfo))
    (containers : List Container) : List ScanResults :=
  containers.filterMap (fun container =>
    match mapLookup container.Image.Sha images with
    | none => none
    | some info =>
      if info.ScanStatus = ScanStatus.complete then info.ScanResults
      else none)

def AggregateResultsSpec (m : Model) (podName : String) :
    Option (Nat × Nat × String) :=
  match mapLookup podName m.Pods with
  | none => none
  | some pod =>
    some (((completedResults m.Images pod.Containers).map
             ScanResults.PolicyViolationCount).sum,
          ((completedResults m.Images pod.Containers).map
             ScanResults.VulnerabilityCount).sum,
          (completedResults m.Images pod.Containers).foldl
            (fun acc r =>
              if r.OverallStatus ≠ "NOT_IN_VIOLATION" then r.OverallStatus
              else acc) "")

/-- Three successive dequeues from the hub check queue, threading the state;
returns the three images when all three calls succeed and yield one. -/
def dequeueHub3 (m : Model) : Option (Image × Image × Image) :=
  match getNextImageFromHubCheckQueue m with
  | some (m1, some a) =>
    match getNextImageFromHubCheckQueue m1 with
    | some (m2, some b) =>
      match getNextImageFromHubCheckQueue m2 with
      | some (_, some c) => some (a, b, c)
      | _ => none
    | _ => none
  | _ => none

/- Concrete images, records and states used by the witnesses and the
aggregation example. -/

def imgA : Image := { Sha := "a", Name := "na" }

def imgB : Image := { Sha := "b", Name := "nb" }

def opsC1 : List Op :=
  [Op.addImage imgA, Op.addImage imgB, Op.dequeueHubCheck,
   Op.dequeueHubCheck, Op.enqueueScan "a", Op.enqueueScan "b",
   Op.dequeueScan]

def mC1 : Model :=
  { Pods := []
    Images := [("b", { ImageSha := "b", ImageName := "nb"
                       ScanStatus := ScanStatus.inQueue, ScanResults := none }),
               ("a", { ImageSha := "a", ImageName := "na"
                       ScanStatus := ScanStatus.runningScanClient
                       ScanResults := none })]
    ImageScanQueue := [imgB]
    ImageHubCheckQueue := []
    ConcurrentScanLimit := 1 }

def opsC10 : List Op :=
  [Op.addImage imgA, Op.addImage imgB, Op.dequeueHubCheck,
   Op.enqueueScan "a", Op.dequeueScan]

def mC10 : Model :=
  { Pods := []
    Images := [("b", { ImageSha := "b", ImageName := "nb"
                       ScanStatus := ScanStatus.inHubCheckQueue
                       ScanResults := none }),
               ("a", { ImageSha := "a", ImageName := "na"
                       ScanStatus := ScanStatus.runningScanClient
                       ScanResults := none })]
    ImageScanQueue := []
    ImageHubCheckQueue := [imgB]
    ConcurrentScanLimit := 1 }

def infoRunning : ImageInfo :=
  { ImageSha := "a", ImageName := "na"
    ScanStatus := ScanStatus.runningScanClient, ScanResults := none }

def mRunning : Model :=
  { Pods := []
    Images := [("a", infoRunning)]
    ImageScanQueue := []
    ImageHubCheckQueue := []
    ConcurrentScanLimit := 2 }

def infoHubRunning : ImageInfo :=
  { ImageSha := "a", ImageName := "na"
    ScanStatus := ScanStatus.runningHubScan, ScanResults := none }

def mHubRunning : Model :=
  { Pods := []
    Images := [("a", infoHubRunning)]
    ImageScanQueue := []
    ImageHubCheckQueue := []
    ConcurrentScanLimit := 2 }

def resultsW : ScanResults :=
  { PolicyViolationCount := 3, VulnerabilityCount := 7
    OverallStatus := "IN_VIOLATION" }

def podC5 : Pod :=
  { Namespace := "ns", Name := "p"
    Containers := [{ Name := "cA", Image := { Sha := "shaA", Name := "A" } },
                   { Name := "cB", Image := { Sha := "shaB", Name := "B" } }] }

def mC5 : Model :=
  { Pods := [("ns/p", podC5)]
    Images := [("shaA", { ImageSha := "shaA", ImageName := "A"
                          ScanStatus := ScanStatus.complete
                          ScanResults := some { PolicyViolationCount := 2
                                                VulnerabilityCount := 5
                                                OverallStatus := "IN_VIOLATION" } }),
               ("shaB", { ImageSha := "shaB", ImageName := "B"
                          ScanStatus := ScanStatus.complete
                          ScanResults := some { PolicyViolationCount := 0
                                                VulnerabilityCount := 1
                                                OverallStatus := "NOT_IN_VIOLATION" } })]
    ImageScanQueue := []
    ImageHubCheckQueue := []
    ConcurrentScanLimit := 3 }

def imgR1 : Image := { Sha := "r1", Name := "n1" }

def imgR2 : Image := { Sha := "r2", Name := "n2" }

def imgR3 : Image := { Sha := "r3", Name := "n3" }

/- Lemmas about the association-list map operations. -/

theorem mapLookup_mapUpdate_self {α : Type} (k : String) (f : α → α)
    (l : List (String × α)) :
    mapLookup k (mapUpdate k f l) = (mapLookup k l).map f := by
  induction l with
  | nil => rfl
  | cons p rest ih =>
    obtain ⟨k', v⟩ := p
    by_cases h : k' = k
    · simp [mapUpdate, mapLookup, h]
    · simp [mapUpdate, mapLookup, h, ih]

theorem mapLookup_mapUpdate_ne {α : Type} (k k' : String) (f : α → α)
    (l : List (String × α)) (h : k' ≠ k) :
    mapLookup k' (mapUpdate k f l) = mapLookup k' l := by
  induction l with
  | nil => rfl
  | cons p rest ih =>
    obtain ⟨k0, v⟩ := p
    by_cases h0 : k0 = k
    · subst h0
      have hne : k0 ≠ k' := fun he => h he.symm
      simp [mapUpdate, mapLookup, hne]
    · simp [mapUpdate, mapLookup, h0, ih]

theorem mapLookup_mapInsert_self {α : Type} (k : String) (v : α)
    (l : List (String × α)) :
    mapLookup k (mapInsert k v l) = some v := by
  simp [mapInsert, mapLookup]

theorem mapLookup_mapInsert_ne {α : Type} (k k' : String) (v : α)
    (l : List (String × α)) (h : k' ≠ k) :
    mapLookup k' (mapInsert k v l) = mapLookup k' l := by
  have hne : k ≠ k' := fun he => h he.symm
  simp [mapInsert, mapLookup, hne]

theorem mapLookup_mapErase_self {α : Type} (k : String)
    (l : List (String × α)) :
    mapLookup k (mapErase k l) = none := by
  induction l with
  | nil => rfl
  | cons p rest ih =>
    obtain ⟨k0, v⟩ := p
    by_cases h0 : k0 = k
    · simp [mapErase, h0, ih]
    · simp [mapErase, mapLookup, h0, ih]

theorem mapLookup_mapErase_ne {α : Type} (k k' : String)
    (l : List (String × α)) (h : k' ≠ k) :
    mapLookup k' (mapErase k l) = mapLookup k' l := by
  induction l with
  | nil => rfl
  | cons p rest ih =>
    obtain ⟨k0, v⟩ := p
    by_cases h0 : k0 = k
    · subst h0
      have : k0 ≠ k' := fun he => h he.symm
      simp [mapErase, mapLookup, this, ih]
    · simp [mapErase, mapLookup, h0, ih]

theorem mapErase_of_lookup_none {α : Type} (k : String)
    (l : List (String × α)) (h : mapLookup k l = none) :
    mapErase k l = l := by
  induction l with
  | nil => rfl
  | cons p rest ih =>
    obtain ⟨k0, v⟩ := p
    by_cases h0 : k0 = k
    · rw [mapLookup, if_pos h0] at h
      exact absurd h (by simp)
    · rw [mapLookup, if_neg h0] at h
      simp [mapErase, h0, ih h]

theorem countP_mapUpdate {α : Type} (q : String × α → Bool) (k : String)
    (v : α) (f : α → α) (l : List (String × α))
    (h : mapLookup k l = some v) :
    (mapUpdate k f l).countP q + (if q (k, v) then 1 else 0)
      = l.countP q + (if q (k, f v) then 1 else 0) := by
  induction l with
  | nil => exact absurd h (by simp [mapLookup])
  | cons p rest ih =>
    obtain ⟨k0, w⟩ := p
    by_cases h0 : k0 = k
    · subst h0
      rw [mapLookup, if_pos rfl] at h
      injection h with hwv
      subst hwv
      simp only [mapUpdate, eq_self_iff_true, if_true, List.countP_cons]
      omega
    · rw [mapLookup, if_neg h0] at h
      simp only [mapUpdate, if_neg h0, List.countP_cons]
      have := ih h
      omega

theorem mapUpdate_mapUpdate {α : Type} (k : String) (f g : α → α)
    (l : List (String × α)) :
    mapUpdate k f (mapUpdate k g l) = mapUpdate k (fun v => f (g v)) l := by
  induction l with
  | nil => rfl
  | cons p rest ih =>
    obtain ⟨k0, v⟩ := p
    by_cases h0 : k0 = k <;> simp [mapUpdate, h0, ih]

/- The in-progress count as a countP over the registry. -/

theorem inProgressScanCount_eq_countP (m : Model) :
    inProgressScanCount m = m.Images.countP inProgressP := by
  simp [inProgressScanCount, inProgressScanJobs,
    List.countP_eq_length_filter]

/- Helpers for preserving the queue invariants under registry updates. -/

theorem queueOk_mapUpdate_of_ne (images : List (String × ImageInfo))
    (q : List Image) (ρ : ScanStatus) (s : String) (info : ImageInfo)
    (f : ImageInfo → ImageInfo)
    (hl : mapLookup s images = some info) (hne : info.ScanStatus ≠ ρ)
    (hq : QueueOk images q ρ) : QueueOk (mapUpdate s f images) q ρ := by
  intro img hmem
  obtain ⟨i, hi, hstat⟩ := hq img hmem
  have hsne : img.Sha ≠ s := by
    intro he
    rw [he] at hi
    have hiv : info = i := Option.some.inj (hl.symm.trans hi)
    exact hne (by rw [hiv]; exact hstat)
  refine ⟨i, ?_, hstat⟩
  rw [mapLookup_mapUpdate_ne _ _ _ _ hsne]
  exact hi

theorem sha_notin_queue_of_ne (images : List (String × ImageInfo))
    (q : List Image) (ρ : ScanStatus) (s : String) (info : ImageInfo)
    (hl : mapLookup s images = some info) (hne : info.ScanStatus ≠ ρ)
    (hq : QueueOk images q ρ) : s ∉ q.map Image.Sha := by
  intro hmem
  obtain ⟨img, hmemq, hsha⟩ := List.mem_map.mp hmem
  obtain ⟨i, hi, hstat⟩ := hq img hmemq
  rw [hsha] at hi
  have hiv : info = i := Option.some.inj (hl.symm.trans hi)
  exact hne (by rw [hiv]; exact hstat)

theorem queueOk_cons_of_lookup_none (images : List (String × ImageInfo))
    (q : List Image) (ρ : ScanStatus) (k : String) (v : ImageInfo)
    (hk : mapLookup k images = none) (hq : QueueOk images q ρ) :
    QueueOk ((k, v) :: images) q ρ := by
  intro img hmem
  obtain ⟨i, hi, hstat⟩ := hq img hmem
  have hne : k ≠ img.Sha := by
    intro he
    rw [← he] at hi
    rw [hk] at hi
    exact absurd hi (by simp)
  refine ⟨i, ?_, hstat⟩
  show (if k = img.Sha then some v else mapLookup img.Sha images) = some i
  rw [if_neg hne]
  exact hi

theorem keys_mapUpdate (images : List (String × ImageInfo)) (key : String)
    (f : ImageInfo → ImageInfo) (hf : ∀ i, (f i).ImageSha = i.ImageSha)
    (hkeys : ∀ sha info, mapLookup sha images = some info →
      info.ImageSha = sha) :
    ∀ sha info, mapLookup sha (mapUpdate key f images) = some info →
      info.ImageSha = sha := by
  intro sha info h
  by_cases he : sha = key
  · subst he
    rw [mapLookup_mapUpdate_self] at h
    cases hl : mapLookup sha images with
    | none => rw [hl] at h; exact absurd h (by simp)
    | some i0 =>
      rw [hl] at h
      have h2 : f i0 = info := Option.some.inj h
      rw [← h2, hf]
      exact hkeys sha i0 hl
  · rw [mapLookup_mapUpdate_ne _ _ _ _ he] at h
    exact hkeys sha info h

/- Invariant preservation building blocks, one per shape of transition. -/

theorem Inv.insertFresh (m : Model) (image : Image)
    (hl : mapLookup image.Sha m.Images = none) (hInv : Inv m) :
    Inv { m with
      Images := mapInsert image.Sha (NewImageInfo image.Sha image.Name)
        m.Images } := by
  refine ⟨?_, ?_, hInv.hubNodup, hInv.scanNodup, ?_, ?_⟩
  · exact queueOk_cons_of_lookup_none _ _ _ _ _ hl hInv.hubOk
  · exact queueOk_cons_of_lookup_none _ _ _ _ _ hl hInv.scanOk
  · intro sha info h
    by_cases he : image.Sha = sha
    · subst he
      rw [mapLookup_mapInsert_self] at h
      have h2 : NewImageInfo image.Sha image.Name = info := Option.some.inj h
      rw [← h2]
      rfl
    · rw [mapLookup_mapInsert_ne _ _ _ _ (fun hx => he hx.symm)] at h
      exact hInv.keys sha info h
  · rw [inProgressScanCount_eq_countP]
    show ((((image.Sha, NewImageInfo image.Sha image.Name) ::
      m.Images).countP inProgressP : Int) ≤ max m.ConcurrentScanLimit 0)
    rw [List.countP_cons]
    have hc := hInv.countLe
    rw [inProgressScanCount_eq_countP] at hc
    have h0 : inProgressP (image.Sha, NewImageInfo image.Sha image.Name)
      = false := rfl
    rw [h0]
    simpa using hc

theorem Inv.updateStatus (m : Model) (sha : String) (info : ImageInfo)
    (f : ImageInfo → ImageInfo)
    (hl : mapLookup sha m.Images = some info) (hInv : Inv m)
    (hfSha : ∀ i, (f i).ImageSha = i.ImageSha)
    (hOldHub : info.ScanStatus ≠ ScanStatus.inHubCheckQueue)
    (hOldScan : info.ScanStatus ≠ ScanStatus.inQueue)
    (hCnt : (if inProgressP (sha, f info) then 1 else 0)
      ≤ (if inProgressP (sha, info) then 1 else 0)) :
    Inv { m with Images := mapUpdate sha f m.Images } := by
  refine ⟨?_, ?_, hInv.hubNodup, hInv.scanNodup, ?_, ?_⟩
  · exact queueOk_mapUpdate_of_ne _ _ _ _ _ _ hl hOldHub hInv.hubOk
  · exact queueOk_mapUpdate_of_ne _ _ _ _ _ _ hl hOldScan hInv.scanOk
  · exact keys_mapUpdate _ _ _ hfSha hInv.keys
  · show ((inProgressScanCount
      { m with Images := mapUpdate sha f m.Images } : Int) ≤ _)
    rw [inProgressScanCount_eq_countP]
    show (((mapUpdate sha f m.Images).countP inProgressP : Int)
      ≤ max m.ConcurrentScanLimit 0)
    have hc := countP_mapUpdate inProgressP sha info f m.Images hl
    have hold := hInv.countLe
    rw [inProgressScanCount_eq_countP] at hold
    omega

theorem Inv.enqueueHub (m : Model) (sha : String) (info : ImageInfo)
    (hl : mapLookup sha m.Images = some info) (hInv : Inv m)
    (hOld : info.ScanStatus = ScanStatus.unknown ∨
      info.ScanStatus = ScanStatus.error) :
    Inv { m with
      Images := mapUpdate sha
        (fun i => { i with ScanStatus := ScanStatus.inHubCheckQueue })
        m.Images
      ImageHubCheckQueue := m.ImageHubCheckQueue ++ [info.image] } := by
  have hOldHub : info.ScanStatus ≠ ScanStatus.inHubCheckQueue := by
    rcases hOld with h0 | h0 <;> rw [h0] <;> intro hx <;> cases hx
  have hOldScan : info.ScanStatus ≠ ScanStatus.inQueue := by
    rcases hOld with h0 | h0 <;> rw [h0] <;> intro hx <;> cases hx
  have hOldProg : inProgressP (sha, info) = false := by
    rcases hOld with h0 | h0 <;> simp [inProgressP, h0]
  have hsha : info.image.Sha = sha := hInv.keys sha info hl
  refine ⟨?_, ?_, ?_, hInv.scanNodup, ?_, ?_⟩
  · intro img hmem
    rcases List.mem_append.mp hmem with hold | hnew
    · exact queueOk_mapUpdate_of_ne _ _ _ _ _ _ hl hOldHub hInv.hubOk
        img hold
    · have himg : img = info.image := by simpa using hnew
      subst himg
      refine ⟨{ info with ScanStatus := ScanStatus.inHubCheckQueue },
        ?_, rfl⟩
      rw [hsha, mapLookup_mapUpdate_self, hl]
      rfl
  · exact queueOk_mapUpdate_of_ne _ _ _ _ _ _ hl hOldScan hInv.scanOk
  · show ((m.ImageHubCheckQueue ++ [info.image]).map Image.Sha).Nodup
    rw [List.map_append]
    rw [List.nodup_append]
    refine ⟨hInv.hubNodup, by simp, ?_⟩
    intro x hx1 hx2
    have hx : x = info.image.Sha := by simpa using hx2
    rw [hx, hsha] at hx1
    exact sha_notin_queue_of_ne _ _ _ _ _ hl hOldHub hInv.hubOk hx1
  · exact keys_mapUpdate _ _ _ (fun i => rfl) hInv.keys
  · show ((inProgressScanCount _ : Int) ≤ _)
    rw [inProgressScanCount_eq_countP]
    show (((mapUpdate sha _ m.Images).countP inProgressP : Int)
      ≤ max m.ConcurrentScanLimit 0)
    have hc := countP_mapUpdate inProgressP sha info
      (fun i => { i with ScanStatus := ScanStatus.inHubCheckQueue })
      m.Images hl
    have hNewProg :
        inProgressP (sha, { info with
          ScanStatus := ScanStatus.inHubCheckQueue }) = false := rfl
    rw [hOldProg, hNewProg] at hc
    have hold := hInv.countLe
    rw [inProgressScanCount_eq_countP] at hold
    omega

theorem Inv.enqueueScanQ (m : Model) (sha : String) (info : ImageInfo)
    (hl : mapLookup sha m.Images = some info) (hInv : Inv m)
    (hOld : info.ScanStatus = ScanStatus.checkingHub ∨
      info.ScanStatus = ScanStatus.error) :
    Inv { m with
      Images := mapUpdate sha
        (fun i => { i with ScanStatus := ScanStatus.inQueue })
        m.Images
      ImageScanQueue := m.ImageScanQueue ++ [info.image] } := by
  have hOldHub : info.ScanStatus ≠ ScanStatus.inHubCheckQueue := by
    rcases hOld with h0 | h0 <;> rw [h0] <;> intro hx <;> cases hx
  have hOldScan : info.ScanStatus ≠ ScanStatus.inQueue := by
    rcases hOld with h0 | h0 <;> rw [h0] <;> intro hx <;> cases hx
  have hOldProg : inProgressP (sha, info) = false := by
    rcases hOld with h0 | h0 <;> simp [inProgressP, h0]
  have hsha : info.image.Sha = sha := hInv.keys sha info hl
  refine ⟨?_, ?_, hInv.hubNodup, ?_, ?_, ?_⟩
  · exact queueOk_mapUpdate_of_ne _ _ _ _ _ _ hl hOldHub hInv.hubOk
  · intro img hmem
    rcases List.mem_append.mp hmem with hold | hnew
    · exact queueOk_mapUpdate_of_ne _ _ _ _ _ _ hl hOldScan hInv.scanOk
        img hold
    · have himg : img = info.image := by simpa using hnew
      subst himg
      refine ⟨{ info with ScanStatus := ScanStatus.inQueue }, ?_, rfl⟩
      rw [hsha, mapLookup_mapUpdate_self, hl]
      rfl
  · show ((m.ImageScanQueue ++ [info.image]).map Image.Sha).Nodup
    rw [List.map_append]
    rw [List.nodup_append]
    refine ⟨hInv.scanNodup, by simp, ?_⟩
    intro x hx1 hx2
    have hx : x = info.image.Sha := by simpa using hx2
    rw [hx, hsha] at hx1
    exact sha_notin_queue_of_ne _ _ _ _ _ hl hOldScan hInv.scanOk hx1
  · exact keys_mapUpdate _ _ _ (fun i => rfl) hInv.keys
  · show ((inProgressScanCount _ : Int) ≤ _)
    rw [inProgressScanCount_eq_countP]
    show (((mapUpdate sha _ m.Images).countP inProgressP : Int)
      ≤ max m.ConcurrentScanLimit 0)
    have hc := countP_mapUpdate inProgressP sha info
      (fun i => { i with ScanStatus := ScanStatus.inQueue })
      m.Images hl
    have hNewProg :
        inProgressP (sha, { info with
          ScanStatus := ScanStatus.inQueue }) = false := rfl
    rw [hOldProg, hNewProg] at hc
    have hold := hInv.countLe
    rw [inProgressScanCount_eq_countP] at hold
    omega

theorem Inv.dequeueHubQ (m : Model) (first : Image) (rest : List Image)
    (info : ImageInfo)
    (hq : m.ImageHubCheckQueue = first :: rest)
    (hl : mapLookup first.Sha m.Images = some info)
    (hs : info.ScanStatus = ScanStatus.inHubCheckQueue)
    (hInv : Inv m) :
    Inv { m with
      Images := mapUpdate first.Sha
        (fun i => { i with ScanStatus := ScanStatus.checkingHub })
        m.Images
      ImageHubCheckQueue := rest } := by
  have hNodup := hInv.hubNodup
  rw [hq, List.map_cons, List.nodup_cons] at hNodup
  refine ⟨?_, ?_, hNodup.2, hInv.scanNodup, ?_, ?_⟩
  · intro img hmem
    have hmem' : img ∈ m.ImageHubCheckQueue := by
      rw [hq]
      exact List.mem_cons_of_mem _ hmem
    obtain ⟨i, hi, hstat⟩ := hInv.hubOk img hmem'
    have hsne : img.Sha ≠ first.Sha := by
      intro he
      exact hNodup.1 (he ▸ List.mem_map_of_mem Image.Sha hmem)
    refine ⟨i, ?_, hstat⟩
    rw [mapLookup_mapUpdate_ne _ _ _ _ hsne]
    exact hi
  · exact queueOk_mapUpdate_of_ne _ _ _ _ _ _ hl
      (by rw [hs]; intro hx; cases hx) hInv.scanOk
  · exact keys_mapUpdate _ _ _ (fun i => rfl) hInv.keys
  · rw [inProgressScanCount_eq_countP]
    show (((mapUpdate first.Sha _ m.Images).countP inProgressP : Int)
      ≤ max m.ConcurrentScanLimit 0)
    have hc := countP_mapUpdate inProgressP first.Sha info
      (fun i => { i with ScanStatus := ScanStatus.checkingHub })
      m.Images hl
    have hOldP : inProgressP (first.Sha, info) = false := by
      simp [inProgressP, hs]
    have hNewP : inProgressP (first.Sha, { info with
      ScanStatus := ScanStatus.checkingHub }) = false := rfl
    rw [hOldP, hNewP] at hc
    have hold := hInv.countLe
    rw [inProgressScanCount_eq_countP] at hold
    omega

theorem Inv.dequeueScanQ (m : Model) (first : Image) (rest : List Image)
    (info : ImageInfo)
    (hq : m.ImageScanQueue = first :: rest)
    (hl : mapLookup first.Sha m.Images = some info)
    (hs : info.ScanStatus = ScanStatus.inQueue)
    (hgate : ¬ ((inProgressScanCount m : Int) ≥ m.ConcurrentScanLimit))
    (hInv : Inv m) :
    Inv { m with
      Images := mapUpdate first.Sha
        (fun i => { i with ScanStatus := ScanStatus.runningScanClient })
        m.Images
      ImageScanQueue := rest } := by
  have hNodup := hInv.scanNodup
  rw [hq, List.map_cons, List.nodup_cons] at hNodup
  refine ⟨?_, ?_, hInv.hubNodup, hNodup.2, ?_, ?_⟩
  · exact queueOk_mapUpdate_of_ne _ _ _ _ _ _ hl
      (by rw [hs]; intro hx; cases hx) hInv.hubOk
  · intro img hmem
    have hmem' : img ∈ m.ImageScanQueue := by
      rw [hq]
      exact List.mem_cons_of_mem _ hmem
    obtain ⟨i, hi, hstat⟩ := hInv.scanOk img hmem'
    have hsne : img.Sha ≠ first.Sha := by
      intro he
      exact hNodup.1 (he ▸ List.mem_map_of_mem Image.Sha hmem)
    refine ⟨i, ?_, hstat⟩
    rw [mapLookup_mapUpdate_ne _ _ _ _ hsne]
    exact hi
  · exact keys_mapUpdate _ _ _ (fun i => rfl) hInv.keys
  · rw [inProgressScanCount_eq_countP]
    show (((mapUpdate first.Sha _ m.Images).countP inProgressP : Int)
      ≤ max m.ConcurrentScanLimit 0)
    have hc := countP_mapUpdate inProgressP first.Sha info
      (fun i => { i with ScanStatus := ScanStatus.runningScanClient })
      m.Images hl
    have hOldP : inProgressP (first.Sha, info) = false := by
      simp [inProgressP, hs]
    have hNewP : inProgressP (first.Sha, { info with
      ScanStatus := ScanStatus.runningScanClient }) = true := rfl
    rw [hOldP, hNewP] at hc
    simp at hc
    have hold := hInv.countLe
    rw [inProgressScanCount_eq_countP] at hold
    rw [inProgressScanCount_eq_countP] at hgate
    omega

/- Preservation of the invariant by every operation. -/

theorem inv_addImageToHubCheckQueue (m m' : Model) (sha : String)
    (hInv : Inv m) (h : addImageToHubCheckQueue m sha = some m') :
    Inv m' := by
  unfold addImageToHubCheckQueue at h
  split at h
  · exact Option.noConfusion h
  · rename_i info hl
    split at h
    · rename_i hs
      rw [← Option.some.inj h]
      exact Inv.enqueueHub m sha info hl hInv (Or.inl hs)
    · rename_i hs
      rw [← Option.some.inj h]
      exact Inv.enqueueHub m sha info hl hInv (Or.inr hs)
    · exact Option.noConfusion h

theorem inv_addImageToScanQueue (m m' : Model) (sha : String)
    (hInv : Inv m) (h : addImageToScanQueue m sha = some m') : Inv m' := by
  unfold addImageToScanQueue at h
  split at h
  · exact Option.noConfusion h
  · rename_i info hl
    split at h
    · rename_i hs
      rw [← Option.some.inj h]
      exact Inv.enqueueScanQ m sha info hl hInv (Or.inl hs)
    · rename_i hs
      rw [← Option.some.inj h]
      exact Inv.enqueueScanQ m sha info hl hInv (Or.inr hs)
    · exact Option.noConfusion h

theorem inv_AddImage (m m' : Model) (image : Image) (hInv : Inv m)
    (h : AddImage m image = some m') : Inv m' := by
  unfold AddImage at h
  cases hl : mapLookup image.Sha m.Images with
  | some info =>
    rw [hl] at h
    rw [← Option.some.inj h]
    exact hInv
  | none =>
    rw [hl] at h
    exact inv_addImageToHubCheckQueue _ _ _
      (Inv.insertFresh m image hl hInv) h

theorem inv_addImagesOfContainers (cs : List Container) :
    ∀ (m m' : Model), Inv m → addImagesOfContainers m cs = some m' →
    Inv m' := by
  induction cs with
  | nil =>
    intro m m' hInv h
    rw [← Option.some.inj h]
    exact hInv
  | cons c rest ih =>
    intro m m' hInv h
    unfold addImagesOfContainers at h
    cases ha : AddImage m c.Image with
    | none => rw [ha] at h; exact Option.noConfusion h
    | some m2 =>
      rw [ha] at h
      exact ih m2 m' (inv_AddImage m m2 c.Image hInv ha) h

theorem inv_AddPod (m m' : Model) (pod : Pod) (hInv : Inv m)
    (h : AddPod m pod = some m') : Inv m' := by
  unfold AddPod at h
  cases ha : addImagesOfContainers m pod.Containers with
  | none => rw [ha] at h; exact Option.noConfusion h
  | some m2 =>
    rw [ha] at h
    rw [← Option.some.inj h]
    have h2 := inv_addImagesOfContainers pod.Containers m m2 hInv ha
    exact ⟨h2.hubOk, h2.scanOk, h2.hubNodup, h2.scanNodup, h2.keys,
      h2.countLe⟩

theorem inv_DeletePod (m : Model) (podName : String) (hInv : Inv m) :
    Inv (DeletePod m podName) :=
  ⟨hInv.hubOk, hInv.scanOk, hInv.hubNodup, hInv.scanNodup, hInv.keys,
    hInv.countLe⟩

theorem inv_getNextHub (m : Model) (r : Model × Option Image) (hInv : Inv m)
    (h : getNextImageFromHubCheckQueue m = some r) : Inv r.1 := by
  unfold getNextImageFromHubCheckQueue at h
  split at h
  · rw [← Option.some.inj h]
    exact hInv
  · rename_i first rest hq
    split at h
    · exact Option.noConfusion h
    · rename_i info hl
      split at h
      · rename_i hs
        rw [← Option.some.inj h]
        exact Inv.dequeueHubQ m first rest info hq hl hs hInv
      · exact Option.noConfusion h

theorem inv_getNextScan (m : Model) (r : Model × Option Image) (hInv : Inv m)
    (h : getNextImageFromScanQueue m = some r) : Inv r.1 := by
  unfold getNextImageFromScanQueue at h
  split at h
  · rw [← Option.some.inj h]
    exact hInv
  · rename_i hgate
    split at h
    · rw [← Option.some.inj h]
      exact hInv
    · rename_i first rest hq
      split at h
      · exact Option.noConfusion h
      · rename_i info hl
        split at h
        · rename_i hs
          rw [← Option.some.inj h]
          exact Inv.dequeueScanQ m first rest info hq hl hs hgate hInv
        · exact Option.noConfusion h

theorem inv_errorRunningScanClient (m m' : Model) (image : Image)
    (hInv : Inv m) (h : errorRunningScanClient m image = some m') :
    Inv m' := by
  unfold errorRunningScanClient at h
  split at h
  · exact Option.noConfusion h
  · rename_i results hl
    split at h
    · rename_i hs
      refine inv_addImageToScanQueue _ _ _ ?_ h
      exact Inv.updateStatus m image.Sha results _ hl hInv (fun i => rfl)
        (by rw [hs]; intro hx; cases hx) (by rw [hs]; intro hx; cases hx)
        (by simp [inProgressP, hs])
    · exact Option.noConfusion h

theorem inv_finishRunningScanClient (m m' : Model) (image : Image)
    (hInv : Inv m) (h : finishRunningScanClient m image = some m') :
    Inv m' := by
  unfold finishRunningScanClient at h
  split at h
  · exact Option.noConfusion h
  · rename_i results hl
    split at h
    · rename_i hs
      rw [← Option.some.inj h]
      exact Inv.updateStatus m image.Sha results _ hl hInv (fun i => rfl)
        (by rw [hs]; intro hx; cases hx) (by rw [hs]; intro hx; cases hx)
        (by simp [inProgressP, hs])
    · exact Option.noConfusion h

theorem inv_finishRunningHubScan (m m' : Model) (image : Image)
    (results : ScanResults) (hInv : Inv m)
    (h : finishRunningHubScan m image results = some m') : Inv m' := by
  unfold finishRunningHubScan at h
  split at h
  · exact Option.noConfusion h
  · rename_i info hl
    split at h
    · rename_i hs
      rw [← Option.some.inj h]
      exact Inv.updateStatus m image.Sha info _ hl hInv (fun i => rfl)
        (by rw [hs]; intro hx; cases hx) (by rw [hs]; intro hx; cases hx)
        (by simp [inProgressP, hs])
    · exact Option.noConfusion h

theorem inv_applyOp (m m' : Model) (op : Op) (hInv : Inv m)
    (h : applyOp m op = some m') : Inv m' := by
  cases op with
  | addPod pod => exact inv_AddPod m m' pod hInv h
  | deletePod podName =>
    rw [← Option.some.inj h]
    exact inv_DeletePod m podName hInv
  | addImage image => exact inv_AddImage m m' image hInv h
  | enqueueHubCheck sha => exact inv_addImageToHubCheckQueue m m' sha hInv h
  | enqueueScan sha => exact inv_addImageToScanQueue m m' sha hInv h
  | dequeueHubCheck =>
    unfold applyOp at h
    cases hr : getNextImageFromHubCheckQueue m with
    | none => rw [hr] at h; exact Option.noConfusion h
    | some r =>
      rw [hr] at h
      rw [← Option.some.inj h]
      exact inv_getNextHub m r hInv hr
  | dequeueScan =>
    unfold applyOp at h
    cases hr : getNextImageFromScanQueue m with
    | none => rw [hr] at h; exact Option.noConfusion h
    | some r =>
      rw [hr] at h
      rw [← Option.some.inj h]
      exact inv_getNextScan m r hInv hr
  | scanError image => exact inv_errorRunningScanClient m m' image hInv h
  | scanClientFinished image =>
    exact inv_finishRunningScanClient m m' image hInv h
  | analysisComplete image results =>
    exact inv_finishRunningHubScan m m' image results hInv h

theorem inv_runOps (ops : List Op) : ∀ (m m' : Model), Inv m →
    runOps m ops = some m' → Inv m' := by
  induction ops with
  | nil =>
    intro m m' hInv h
    rw [← Option.some.inj h]
    exact hInv
  | cons op rest ih =>
    intro m m' hInv h
    unfold runOps at h
    cases ha : applyOp m op with
    | none => rw [ha] at h; exact Option.noConfusion h
    | some m2 =>
      rw [ha] at h
      exact ih m2 m' (inv_applyOp m m2 op hInv ha) h

theorem inv_NewModel (n : Int) : Inv (NewModel n) := by
  refine ⟨?_, ?_, ?_, ?_, ?_, ?_⟩
  · intro img hmem
    exact absurd hmem (by simp [NewModel])
  · intro img hmem
    exact absurd hmem (by simp [NewModel])
  · simp [NewModel]
  · simp [NewModel]
  · intro sha info hl
    exact absurd hl (by simp [NewModel, mapLookup])
  · rw [inProgressScanCount_eq_countP]
    simp [NewModel]

theorem inv_reachable (n : Int) (ops : List Op) (m : Model)
    (h : runOps (NewModel n) ops = some m) : Inv m :=
  inv_runOps ops (NewModel n) m (inv_NewModel n) h

/- No operation changes the concurrency limit. -/

theorem limit_addImageToHubCheckQueue (m m' : Model) (sha : String)
    (h : addImageToHubCheckQueue m sha = some m') :
    m'.ConcurrentScanLimit = m.ConcurrentScanLimit := by
  unfold addImageToHubCheckQueue at h
  split at h
  · exact Option.noConfusion h
  · split at h
    · rw [← Option.some.inj h]
    · rw [← Option.some.inj h]
    · exact Option.noConfusion h

theorem limit_addImageToScanQueue (m m' : Model) (sha : String)
    (h : addImageToScanQueue m sha = some m') :
    m'.ConcurrentScanLimit = m.ConcurrentScanLimit := by
  unfold addImageToScanQueue at h
  split at h
  · exact Option.noConfusion h
  · split at h
    · rw [← Option.some.inj h]
    · rw [← Option.some.inj h]
    · exact Option.noConfusion h

theorem limit_AddImage (m m' : Model) (image : Image)
    (h : AddImage m image = some m') :
    m'.ConcurrentScanLimit = m.ConcurrentScanLimit := by
  unfold AddImage at h
  split at h
  · rw [← Option.some.inj h]
  · have h2 := limit_addImageToHubCheckQueue
      { m with
        Images := mapInsert image.Sha (NewImageInfo image.Sha image.Name)
            m.Images }
      m' image.Sha h
    exact h2

theorem limit_addImagesOfContainers (cs : List Container) :
    ∀ (m m' : Model), addImagesOfContainers m cs = some m' →
    m'.ConcurrentScanLimit = m.ConcurrentScanLimit := by
  induction cs with
  | nil =>
    intro m m' h
    rw [← Option.some.inj h]
  | cons c rest ih =>
    intro m m' h
    unfold addImagesOfContainers at h
    cases ha : AddImage m c.Image with
    | none => rw [ha] at h; exact Option.noConfusion h
    | some m2 =>
      rw [ha] at h
      exact (ih m2 m' h).trans (limit_AddImage m m2 c.Image ha)

theorem limit_AddPod (m m' : Model) (pod : Pod)
    (h : AddPod m pod = some m') :
    m'.ConcurrentScanLimit = m.ConcurrentScanLimit := by
  unfold AddPod at h
  cases ha : addImagesOfContainers m pod.Containers with
  | none => rw [ha] at h; exact Option.noConfusion h
  | some m2 =>
    rw [ha] at h
    rw [← Option.some.inj h]
    exact limit_addImagesOfContainers pod.Containers m m2 ha

theorem limit_getNextHub (m : Model) (r : Model × Option Image)
    (h : getNextImageFromHubCheckQueue m = some r) :
    r.1.ConcurrentScanLimit = m.ConcurrentScanLimit := by
  unfold getNextImageFromHubCheckQueue at h
  split at h
  · rw [← Option.some.inj h]
  · split at h
    · exact Option.noConfusion h
    · split at h
      · rw [← Option.some.inj h]
      · exact Option.noConfusion h

theorem limit_getNextScan (m : Model) (r : Model × Option Image)
    (h : getNextImageFromScanQueue m = some r) :
    r.1.ConcurrentScanLimit = m.ConcurrentScanLimit := by
  unfold getNextImageFromScanQueue at h
  split at h
  · rw [← Option.some.inj h]
  · split at h
    · rw [← Option.some.inj h]
    · split at h
      · exact Option.noConfusion h
      · split at h
        · rw [← Option.some.inj h]
        · exact Option.noConfusion h

theorem limit_errorRunningScanClient (m m' : Model) (image : Image)
    (h : errorRunningScanClient m image = some m') :
    m'.ConcurrentScanLimit = m.ConcurrentScanLimit := by
  unfold errorRunningScanClient at h
  split at h
  · exact Option.noConfusion h
  · split at h
    · have h2 := limit_addImageToScanQueue
        { m with
          Images := mapUpdate image.Sha
              (fun i => { i with ScanStatus := ScanStatus.error })
              m.Images }
        m' image.Sha h
      exact h2
    · exact Option.noConfusion h

theorem limit_finishRunningScanClient (m m' : Model) (image : Image)
    (h : finishRunningScanClient m image = some m') :
    m'.ConcurrentScanLimit = m.ConcurrentScanLimit := by
  unfold finishRunningScanClient at h
  split at h
  · exact Option.noConfusion h
  · split at h
    · rw [← Option.some.inj h]
    · exact Option.noConfusion h

theorem limit_finishRunningHubScan (m m' : Model) (image : Image)
    (results : ScanResults)
    (h : finishRunningHubScan m image results = some m') :
    m'.ConcurrentScanLimit = m.ConcurrentScanLimit := by
  unfold finishRunningHubScan at h
  split at h
  · exact Option.noConfusion h
  · split at h
    · rw [← Option.some.inj h]
    · exact Option.noConfusion h

theorem limit_applyOp (m m' : Model) (op : Op)
    (h : applyOp m op = some m') :
    m'.ConcurrentScanLimit = m.ConcurrentScanLimit := by
  cases op with
  | addPod pod => exact limit_AddPod m m' pod h
  | deletePod podName => rw [← Option.some.inj h]; rfl
  | addImage image => exact limit_AddImage m m' image h
  | enqueueHubCheck sha => exact limit_addImageToHubCheckQueue m m' sha h
  | enqueueScan sha => exact limit_addImageToScanQueue m m' sha h
  | dequeueHubCheck =>
    unfold applyOp at h
    cases hr : getNextImageFromHubCheckQueue m with
    | none => rw [hr] at h; exact Option.noConfusion h
    | some r =>
      rw [hr] at h
      rw [← Option.some.inj h]
      exact limit_getNextHub m r hr
  | dequeueScan =>
    unfold applyOp at h
    cases hr : getNextImageFromScanQueue m with
    | none => rw [hr] at h; exact Option.noConfusion h
    | some r =>
      rw [hr] at h
      rw [← Option.some.inj h]
      exact limit_getNextScan m r hr
  | scanError image => exact limit_errorRunningScanClient m m' image h
  | scanClientFinished image =>
    exact limit_finishRunningScanClient m m' image h
  | analysisComplete image results =>
    exact limit_finishRunningHubScan m m' image results h

theorem limit_runOps (ops : List Op) : ∀ (m m' : Model),
    runOps m ops = some m' →
    m'.ConcurrentScanLimit = m.ConcurrentScanLimit := by
  induction ops with
  | nil =>
    intro m m' h
    rw [← Option.some.inj h]
  | cons op rest ih =>
    intro m m' h
    unfold runOps at h
    cases ha : applyOp m op with
    | none => rw [ha] at h; exact Option.noConfusion h
    | some m2 =>
      rw [ha] at h
      exact (ih m2 m' h).trans (limit_applyOp m m2 op ha)

/- The aggregation fold, characterised against the spec-side description. -/

theorem scanResults_foldl_spec (images : List (String × ImageInfo)) :
    ∀ (cs : List Container) (a b : Nat) (s : String),
    cs.foldl (scanResultsStep images) (a, b, s)
      = (a + ((completedResults images cs).map
            ScanResults.PolicyViolationCount).sum,
         b + ((completedResults images cs).map
            ScanResults.VulnerabilityCount).sum,
         (completedResults images cs).foldl
           (fun acc r => if r.OverallStatus ≠ "NOT_IN_VIOLATION"
             then r.OverallStatus else acc) s) := by
  intro cs
  induction cs with
  | nil =>
    intro a b s
    simp [completedResults]
  | cons c rest ih =>
    intro a b s
    rw [List.foldl_cons]
    cases hl : mapLookup c.Image.Sha images with
    | none =>
      have hstep : scanResultsStep images (a, b, s) c = (a, b, s) := by
        simp [scanResultsStep, hl]
      have hcomp : completedResults images (c :: rest)
          = completedResults images rest := by
        simp [completedResults, List.filterMap_cons, hl]
      rw [hstep, hcomp, ih]
    | some info =>
      by_cases hst : info.ScanStatus = ScanStatus.complete
      · cases hr : info.ScanResults with
        | none =>
          have hstep : scanResultsStep images (a, b, s) c = (a, b, s) := by
            simp [scanResultsStep, hl, hst, hr]
          have hcomp : completedResults images (c :: rest)
              = completedResults images rest := by
            simp [completedResults, List.filterMap_cons, hl, hst, hr]
          rw [hstep, hcomp, ih]
        | some r =>
          have hstep : scanResultsStep images (a, b, s) c
              = (a + r.PolicyViolationCount, b + r.VulnerabilityCount,
                 if r.OverallStatus ≠ "NOT_IN_VIOLATION" then r.OverallStatus
                 else s) := by
            simp [scanResultsStep, hl, hst, hr]
          have hcomp : completedResults images (c :: rest)
              = r :: completedResults images rest := by
            simp [completedResults, List.filterMap_cons, hl, hst, hr]
          rw [hstep, hcomp, ih]
          simp [Nat.add_assoc]
      · have hstep : scanResultsStep images (a, b, s) c = (a, b, s) := by
          simp [scanResultsStep, hl, hst]
        have hcomp : completedResults images (c :: rest)
            = completedResults images rest := by
          simp [completedResults, List.filterMap_cons, hl, hst]
        rw [hstep, hcomp, ih]

/- The claims. -/

/-- C1: for every concurrency limit N at least 0 and every state reachable
by core operations, the number of images in RunningScanClient or
RunningHubScan never exceeds N; moreover getNextImageFromScanQueue returns
no image whenever that count is at or above N, even when the scan queue is
non-empty, leaving the state unchanged. -/
theorem C1_admission_respects_capacity (N : Int) (ops : List Op) (m : Model)
    (hN : 0 ≤ N) (h : runOps (NewModel N) ops = some m) :
    (inProgressScanCount m : Int) ≤ N ∧
    ((inProgressScanCount m : Int) ≥ N →
      getNextImageFromScanQueue m = some (m, none)) := by
  have hInv := inv_reachable N ops m h
  have hLim : m.ConcurrentScanLimit = N := limit_runOps ops (NewModel N) m h
  constructor
  · have hc := hInv.countLe
    rw [hLim, max_eq_left hN] at hc
    exact hc
  · intro hge
    unfold getNextImageFromScanQueue
    rw [if_pos (by rw [hLim]; exact hge)]

/-- C1 witness: a reachable state at the limit (limit 1, one scan running)
with a non-empty scan queue, where the dequeue returns no image. -/
theorem C1_admission_witness :
    getNextImageFromScanQueue mC1 = some (mC1, none) ∧
    mC1.ImageScanQueue ≠ [] :=
  ⟨(C1_admission_respects_capacity 1 opsC1 mC1 (by decide) (by rfl)).2
      (by decide),
   by decide⟩

/-- C2: in every reachable state, every sha appears at most once across the
hub-check queue and the scan queue: never in both, never twice in either. -/
theorem C2_at_most_one_queue_membership (N : Int) (ops : List Op) (m : Model)
    (h : runOps (NewModel N) ops = some m) :
    ((m.ImageHubCheckQueue.map Image.Sha) ++
      (m.ImageScanQueue.map Image.Sha)).Nodup := by
  have hInv := inv_reachable N ops m h
  rw [List.nodup_append]
  refine ⟨hInv.hubNodup, hInv.scanNodup, ?_⟩
  intro s hs1 hs2
  obtain ⟨img1, hm1, hsha1⟩ := List.mem_map.mp hs1
  obtain ⟨img2, hm2, hsha2⟩ := List.mem_map.mp hs2
  obtain ⟨i1, hi1, hst1⟩ := hInv.hubOk img1 hm1
  obtain ⟨i2, hi2, hst2⟩ := hInv.scanOk img2 hm2
  rw [hsha1] at hi1
  rw [hsha2] at hi2
  have hii : i1 = i2 := Option.some.inj (hi1.symm.trans hi2)
  rw [hii, hst2] at hst1
  cases hst1

/-- C2 witness: a concrete reachable state with both a hub-check queue
member and a running scan. -/
theorem C2_at_most_one_witness :
    ((mC10.ImageHubCheckQueue.map Image.Sha) ++
      (mC10.ImageScanQueue.map Image.Sha)).Nodup :=
  C2_at_most_one_queue_membership 1 opsC10 mC10 (by rfl)

/-- C3: for every record in RunningHubScan, finishRunningHubScan (the
ReportAnalysisComplete operation, modelled from the spec) moves it to
Complete and attaches the given results, leaving queues and pods
unchanged. -/
theorem C3_report_analysis_complete (m : Model) (img : Image)
    (results : ScanResults) (info : ImageInfo)
    (hl : mapLookup img.Sha m.Images = some info)
    (hs : info.ScanStatus = ScanStatus.runningHubScan) :
    ∃ m', finishRunningHubScan m img results = some m' ∧
      mapLookup img.Sha m'.Images =
        some { info with ScanStatus := ScanStatus.complete
                         ScanResults := some results } ∧
      m'.ImageScanQueue = m.ImageScanQueue ∧
      m'.ImageHubCheckQueue = m.ImageHubCheckQueue ∧
      m'.Pods = m.Pods := by
  refine ⟨{ m with
      Images := mapUpdate img.Sha
        (fun i => { i with ScanStatus := ScanStatus.complete
                           ScanResults := some results })
        m.Images },
    ?_, ?_, rfl, rfl, rfl⟩
  · simp [finishRunningHubScan, hl, hs]
  · rw [mapLookup_mapUpdate_self, hl]
    rfl

/-- C3 witness: a concrete record in RunningHubScan completed with concrete
results. -/
theorem C3_report_analysis_witness :
    ∃ m', finishRunningHubScan mHubRunning imgA resultsW = some m' ∧
      mapLookup imgA.Sha m'.Images =
        some { infoHubRunning with ScanStatus := ScanStatus.complete
                                   ScanResults := some resultsW } ∧
      m'.ImageScanQueue = mHubRunning.ImageScanQueue ∧
      m'.ImageHubCheckQueue = mHubRunning.ImageHubCheckQueue ∧
      m'.Pods = mHubRunning.Pods :=
  C3_report_analysis_complete mHubRunning imgA resultsW infoHubRunning
    (by rfl) (by rfl)

/-- C4: for every record in RunningScanClient, errorRunningScanClient
leaves it with status InQueue (ScanQueued), appends the image at the tail
of the scan queue, immediately and unconditionally, leaving the hub-check
queue and pods unchanged. -/
theorem C4_scan_error_requeues (m : Model) (img : Image) (info : ImageInfo)
    (hl : mapLookup img.Sha m.Images = some info)
    (hs : info.ScanStatus = ScanStatus.runningScanClient) :
    ∃ m', errorRunningScanClient m img = some m' ∧
      mapLookup img.Sha m'.Images =
        some { info with ScanStatus := ScanStatus.inQueue } ∧
      m'.ImageScanQueue = m.ImageScanQueue ++ [info.image] ∧
      m'.ImageHubCheckQueue = m.ImageHubCheckQueue ∧
      m'.Pods = m.Pods ∧
      m'.ConcurrentScanLimit = m.ConcurrentScanLimit := by
  have h2 : mapLookup img.Sha (mapUpdate img.Sha
      (fun i => { i with ScanStatus := ScanStatus.error }) m.Images)
      = some { info with ScanStatus := ScanStatus.error } := by
    rw [mapLookup_mapUpdate_self, hl]
    rfl
  refine ⟨{ m with
      Images := mapUpdate img.Sha
        (fun i => { i with ScanStatus := ScanStatus.inQueue })
        (mapUpdate img.Sha
          (fun i => { i with ScanStatus := ScanStatus.error })
          m.Images)
      ImageScanQueue := m.ImageScanQueue ++ [info.image] },
    ?_, ?_, rfl, rfl, rfl, rfl⟩
  · simp [errorRunningScanClient, hl, hs, addImageToScanQueue, h2,
      ImageInfo.image]
  · rw [mapUpdate_mapUpdate, mapLookup_mapUpdate_self, hl]
    rfl

/-- C4 witness: a concrete record in RunningScanClient re-queued after a
scan error. -/
theorem C4_scan_error_witness :
    ∃ m', errorRunningScanClient mRunning imgA = some m' ∧
      mapLookup imgA.Sha m'.Images =
        some { infoRunning with ScanStatus := ScanStatus.inQueue } ∧
      m'.ImageScanQueue = mRunning.ImageScanQueue ++ [infoRunning.image] ∧
      m'.ImageHubCheckQueue = mRunning.ImageHubCheckQueue ∧
      m'.Pods = mRunning.Pods ∧
      m'.ConcurrentScanLimit = mRunning.ConcurrentScanLimit :=
  C4_scan_error_requeues mRunning imgA infoRunning (by rfl) (by rfl)

/-- C5: scanResults agrees with the spec-side aggregation (sums over the
pod's containers' Complete-with-results images in order, last-write-wins
non-sentinel overall status), fails with none for an absent pod key, and on
the concrete two-image example returns (2, 6, IN VIOLATION). -/
theorem C5_aggregate_results :
    (∀ (m : Model) (podName : String),
      scanResults m podName = AggregateResultsSpec m podName) ∧
    (∀ (m : Model) (podName : String), mapLookup podName m.Pods = none →
      scanResults m podName = none) ∧
    scanResults mC5 "ns/p" = some (2, 6, "IN_VIOLATION") ∧
    scanResults mC5 "ns/absent" = none := by
  refine ⟨?_, ?_, by rfl, by rfl⟩
  · intro m podName
    cases hp : mapLookup podName m.Pods with
    | none => simp [scanResults, AggregateResultsSpec, hp]
    | some pod =>
      simp only [scanResults, AggregateResultsSpec, hp]
      rw [scanResults_foldl_spec]
      simp
  · intro m podName hnone
    simp [scanResults, hnone]

/-- C5 witness: the not-found case at a concrete absent pod key. -/
theorem C5_aggregate_witness : scanResults mC5 "ns/missing" = none :=
  C5_aggregate_results.2.1 mC5 "ns/missing" (by rfl)

/-- C6: registering a sha already present is a no-op, whether through
AddImage directly or through AddPod of a pod all of whose container images
are already present (which then only replaces the pod entry). -/
theorem C6_idempotent_registration (m : Model) (img : Image)
    (h : ∃ info, mapLookup img.Sha m.Images = some info) :
    AddImage m img = some m ∧
    (∀ pod : Pod, (∀ c ∈ pod.Containers,
        ∃ info, mapLookup c.Image.Sha m.Images = some info) →
      AddPod m pod =
        some { m with Pods := mapSet pod.QualifiedName pod m.Pods }) := by
  constructor
  · obtain ⟨info, hl⟩ := h
    simp [AddImage, hl]
  · intro pod hall
    have hAll : ∀ (cs : List Container),
        (∀ c ∈ cs, ∃ info, mapLookup c.Image.Sha m.Images = some info) →
        addImagesOfContainers m cs = some m := by
      intro cs
      induction cs with
      | nil => intro _; rfl
      | cons c rest ih =>
        intro hall2
        obtain ⟨info, hl⟩ := hall2 c (List.mem_cons_self _ _)
        have hA : AddImage m c.Image = some m := by simp [AddImage, hl]
        unfold addImagesOfContainers
        rw [hA]
        exact ih (fun c2 hc2 => hall2 c2 (List.mem_cons_of_mem _ hc2))
    simp [AddPod, hAll pod.Containers hall]

/-- C6 witness: a repeat AddImage of a present sha returns the state
unchanged. -/
theorem C6_idempotent_witness : AddImage mC10 imgA = some mC10 :=
  (C6_idempotent_registration mC10 imgA ⟨_, by rfl⟩).1

/-- C7: every transition operation invoked against an absent image or
against a record not in the operation's precondition status aborts
(returns none), transitioning nothing. -/
theorem C7_invalid_transition_aborts (m : Model) (img : Image)
    (info : ImageInfo) (rest : List Image) :
    (mapLookup img.Sha m.Images = none →
      addImageToHubCheckQueue m img.Sha = none ∧
      addImageToScanQueue m img.Sha = none ∧
      errorRunningScanClient m img = none ∧
      finishRunningScanClient m img = none ∧
      (m.ImageHubCheckQueue = img :: rest →
        getNextImageFromHubCheckQueue m = none) ∧
      (m.ImageScanQueue = img :: rest →
        ¬ ((inProgressScanCount m : Int) ≥ m.ConcurrentScanLimit) →
        getNextImageFromScanQueue m = none)) ∧
    (mapLookup img.Sha m.Images = some info →
      (info.ScanStatus ≠ ScanStatus.unknown →
        info.ScanStatus ≠ ScanStatus.error →
        addImageToHubCheckQueue m img.Sha = none) ∧
      (info.ScanStatus ≠ ScanStatus.checkingHub →
        info.ScanStatus ≠ ScanStatus.error →
        addImageToScanQueue m img.Sha = none) ∧
      (info.ScanStatus ≠ ScanStatus.runningScanClient →
        errorRunningScanClient m img = none ∧
        finishRunningScanClient m img = none) ∧
      (m.ImageHubCheckQueue = img :: rest →
        info.ScanStatus ≠ ScanStatus.inHubCheckQueue →
        getNextImageFromHubCheckQueue m = none) ∧
      (m.ImageScanQueue = img :: rest →
        ¬ ((inProgressScanCount m : Int) ≥ m.ConcurrentScanLimit) →
        info.ScanStatus ≠ ScanStatus.inQueue →
        getNextImageFromScanQueue m = none)) := by
  constructor
  · intro hnone
    refine ⟨?_, ?_, ?_, ?_, ?_, ?_⟩
    · simp [addImageToHubCheckQueue, hnone]
    · simp [addImageToScanQueue, hnone]
    · simp [errorRunningScanClient, hnone]
    · simp [finishRunningScanClient, hnone]
    · intro hq
      simp [getNextImageFromHubCheckQueue, hq, hnone]
    · intro hq hgate
      simp [getNextImageFromScanQueue, hq, hnone, hgate]
  · intro hl
    refine ⟨?_, ?_, ?_, ?_, ?_⟩
    · intro h1 h2
      cases h3 : info.ScanStatus
      case unknown => exact absurd h3 h1
      case error => exact absurd h3 h2
      all_goals simp [addImageToHubCheckQueue, hl, h3]
    · intro h1 h2
      cases h3 : info.ScanStatus
      case checkingHub => exact absurd h3 h1
      case error => exact absurd h3 h2
      all_goals simp [addImageToScanQueue, hl, h3]
    · intro h1
      exact ⟨by simp [errorRunningScanClient, hl, h1],
        by simp [finishRunningScanClient, hl, h1]⟩
    · intro hq h1
      simp [getNextImageFromHubCheckQueue, hq, hl, h1]
    · intro hq hgate h1
      simp [getNextImageFromScanQueue, hq, hl, h1, hgate]

/-- C7 witness: operations against an absent sha abort, and a report
against a record that is not running aborts. -/
theorem C7_invalid_transition_witness :
    addImageToHubCheckQueue (NewModel 0) "a" = none ∧
    errorRunningScanClient mHubRunning imgA = none :=
  ⟨((C7_invalid_transition_aborts (NewModel 0) imgA infoRunning []).1
      (by rfl)).1,
   (((C7_invalid_transition_aborts mHubRunning imgA infoHubRunning []).2
      (by rfl)).2.2.1 (by decide)).1⟩

/-- C8: the hub-check queue is strict FIFO: registering three distinct
fresh images and then dequeueing three times returns them in registration
order. -/
theorem C8_hub_queue_fifo (N : Int) (r1 r2 r3 : Image)
    (h12 : r1.Sha ≠ r2.Sha) (h13 : r1.Sha ≠ r3.Sha)
    (h23 : r2.Sha ≠ r3.Sha) :
    Option.bind (runOps (NewModel N)
        [Op.addImage r1, Op.addImage r2, Op.addImage r3]) dequeueHub3
      = some (r1, r2, r3) := by
  simp [runOps, applyOp, AddImage, NewModel, mapLookup, mapInsert,
    addImageToHubCheckQueue, NewImageInfo, mapUpdate, dequeueHub3,
    getNextImageFromHubCheckQueue, ImageInfo.image,
    h12, h13, h23, Ne.symm h12, Ne.symm h13, Ne.symm h23]

/-- C8 witness: three concrete distinct images dequeue in registration
order. -/
theorem C8_hub_queue_fifo_witness :
    Option.bind (runOps (NewModel 5)
        [Op.addImage imgR1, Op.addImage imgR2, Op.addImage imgR3])
        dequeueHub3
      = some (imgR1, imgR2, imgR3) :=
  C8_hub_queue_fifo 5 imgR1 imgR2 imgR3 (by decide) (by decide) (by decide)

/-- C9: DeletePod removes only the pod's entry: the image registry, both
queues and the limit are untouched, other pod entries are untouched, and
deleting an absent pod key is a no-op, not an error. -/
theorem C9_delete_pod_frame (m : Model) (podName : String) :
    (DeletePod m podName).Images = m.Images ∧
    (DeletePod m podName).ImageScanQueue = m.ImageScanQueue ∧
    (DeletePod m podName).ImageHubCheckQueue = m.ImageHubCheckQueue ∧
    (DeletePod m podName).ConcurrentScanLimit = m.ConcurrentScanLimit ∧
    mapLookup podName (DeletePod m podName).Pods = none ∧
    (∀ other, other ≠ podName →
      mapLookup other (DeletePod m podName).Pods =
        mapLookup other m.Pods) ∧
    (mapLookup podName m.Pods = none → DeletePod m podName = m) := by
  refine ⟨rfl, rfl, rfl, rfl, ?_, ?_, ?_⟩
  · exact mapLookup_mapErase_self _ _
  · intro other hne
    exact mapLookup_mapErase_ne _ _ _ hne
  · intro hnone
    show { m with Pods := mapErase podName m.Pods } = m
    rw [mapErase_of_lookup_none _ _ hnone]

/-- C9 witness: deleting an absent pod key is the identity on a concrete
state. -/
theorem C9_delete_pod_witness : DeletePod mC5 "ns/ghost" = mC5 :=
  (C9_delete_pod_frame mC5 "ns/ghost").2.2.2.2.2.2 (by rfl)

/-- C10: the concurrency limit gates only the scan queue: in every
reachable state, whenever the hub-check queue is non-empty its head is
dequeued and moved to CheckingHub, with no reference to the in-progress
count or the limit. -/
theorem C10_hub_dequeue_ungated (N : Int) (ops : List Op) (m : Model)
    (img : Image) (rest : List Image)
    (h : runOps (NewModel N) ops = some m)
    (hq : m.ImageHubCheckQueue = img :: rest) :
    getNextImageFromHubCheckQueue m =
      some ({ m with
        Images := mapUpdate img.Sha
          (fun i => { i with ScanStatus := ScanStatus.checkingHub })
          m.Images
        ImageHubCheckQueue := rest }, some img) := by
  have hInv := inv_reachable N ops m h
  obtain ⟨info, hl, hs⟩ := hInv.hubOk img
    (by rw [hq]; exact List.mem_cons_self _ _)
  simp [getNextImageFromHubCheckQueue, hq, hl, hs]

/-- C10 witness: a reachable state already at its concurrency limit
(limit 1, one scan running) still dequeues from the hub-check queue. -/
theorem C10_hub_dequeue_witness :
    getNextImageFromHubCheckQueue mC10 =
      some ({ mC10 with
        Images := mapUpdate imgB.Sha
          (fun i => { i with ScanStatus := ScanStatus.checkingHub })
          mC10.Images
        ImageHubCheckQueue := [] }, some imgB) :=
  C10_hub_dequeue_ungated 1 opsC10 mC10 imgB [] (by rfl) (by rfl)

end Perceptor
